import Mathlib

/-!
Shallow embedding of the matafOS data-resolution / classification /
aggregation engine (src/unnamed/part_000 `CONFIG`, src/unnamed/part_003
`DataProcessor`, src/js/modules/team-filter.js `TeamFilter`) and proofs of
the spec claims about it.

Modelling conventions:
* JavaScript cell values are modelled by `JVal`: finite numbers (as `ℚ`),
  strings, and `jnull` (covering both `null` and `undefined`, which the
  code never distinguishes).
* `parseFloat` is modelled by `jsParseFloatStr` implementing the ECMA
  longest-numeric-prefix grammar (sign, digits, decimal point, exponent);
  the `Infinity` literal is not modelled — no data or claim involves it.
  `NaN` results are modelled as `none`.
* A raw row (`Object` of header → cell) is an association list in
  `Object.keys` insertion order; JS objects with plain string keys preserve
  that order.
* `Date.toLocaleDateString` rendering is environment-dependent and no claim
  depends on it; `formatDate` keeps the code's control flow (falsy → "",
  numeric serial → an injective rendering, string → verbatim, since the
  generic `new Date(string)` reparse is host-defined).
* Floating-point arithmetic is modelled over `ℚ`.
-/

/-- Model of a JavaScript cell value: finite number, string, or null/undefined. -/
inductive JVal where
  | jnum (q : ℚ)
  | jstr (s : String)
  | jnull
deriving DecidableEq

open JVal

/-- JS falsiness for the values we model (0, "", null/undefined). -/
def jsFalsy : JVal → Bool
  | jnum q => decide (q = 0)
  | jstr s => decide (s = "")
  | jnull => true

/-- JS truthiness. -/
def jsTruthy (v : JVal) : Bool := !jsFalsy v

/-- JS `String(v)`. Integer numbers render as their digit string as in JS;
non-integer rationals render in `a/b` form, a deviation from JS decimal
rendering that no claim depends on (ids and task keys are integral or
strings in every instance considered). -/
def jsToString : JVal → String
  | jnum q => if q.den = 1 then toString q.num else toString q
  | jstr s => s
  | jnull => "null"

/-- JS `a || b` on cell values. -/
def jsOr (a b : JVal) : JVal := if jsFalsy a then b else a

/-- Does list `l` start with `p`? (element-wise equality). -/
def leadsList : List Char → List Char → Bool
  | [], _ => true
  | _ :: _, [] => false
  | a :: as, b :: bs => a = b && leadsList as bs

/-- Does `s` contain `sub` as a contiguous sublist? -/
def hasSub (sub : List Char) : List Char → Bool
  | [] => leadsList sub []
  | c :: rest => leadsList sub (c :: rest) || hasSub sub rest

/-- JS `s.includes(sub)`. -/
def strContains (s sub : String) : Bool := hasSub sub.toList s.toList

/-- Drop leading and trailing whitespace from a character list. -/
def trimChars (cs : List Char) : List Char :=
  ((cs.dropWhile Char.isWhitespace).reverse.dropWhile Char.isWhitespace).reverse

/-- JS `s.trim()` (whitespace per `Char.isWhitespace`, which covers every
character occurring in the configured headers and data). -/
def jsTrim (s : String) : String := String.mk (trimChars s.toList)

/-- JS `s.toLowerCase()` restricted to per-character ASCII lowering; the
Hebrew configuration text has no case, so this agrees with JS on every string
the system compares. -/
def jsToLower (s : String) : String := String.mk (s.toList.map Char.toLower)

/-- Numeric value of a digit run (most significant first). -/
def digitsToNat (ds : List Char) : Nat := ds.foldl (fun n c => 10 * n + (c.toNat - 48)) 0

/-- Parse an unsigned decimal mantissa prefix: `Digits`, `Digits.Digits?`, or
`.Digits`; returns the value and the unconsumed remainder. -/
def parseMantissa (cs : List Char) : Option (ℚ × List Char) :=
  let ip := cs.takeWhile Char.isDigit
  let r1 := cs.dropWhile Char.isDigit
  match r1 with
  | '.' :: r2 =>
    let fp := r2.takeWhile Char.isDigit
    let r3 := r2.dropWhile Char.isDigit
    if ip.isEmpty && fp.isEmpty then none
    else some ((digitsToNat ip : ℚ) + (digitsToNat fp : ℚ) / ((10 : ℚ) ^ fp.length), r3)
  | _ => if ip.isEmpty then none else some ((digitsToNat ip : ℚ), r1)

/-- Consume an optional exponent part `e[+-]?Digits` after a mantissa; an `e`
not followed by digits is not consumed (as in JS `parseFloat "1e"` = 1). -/
def applyExp (q : ℚ) (cs : List Char) : ℚ :=
  match cs with
  | c :: rest =>
    if c = 'e' ∨ c = 'E' then
      let sgn : Int := match rest with
        | '-' :: _ => -1
        | _ => 1
      let rest2 := match rest with
        | '-' :: r => r
        | '+' :: r => r
        | r => r
      let ds := rest2.takeWhile Char.isDigit
      if ds.isEmpty then q
      else q * (10 : ℚ) ^ (sgn * (digitsToNat ds : Int))
    else q
  | [] => q

/-- Signed mantissa + exponent. -/
def parseBody (cs : List Char) : Option ℚ :=
  match parseMantissa cs with
  | none => none
  | some (q, rest) => some (applyExp q rest)

/-- Model of JS `parseFloat` on a string: skip leading whitespace, parse the
longest numeric-literal prefix; `none` models `NaN`. -/
def jsParseFloatStr (s : String) : Option ℚ :=
  let cs := s.toList.dropWhile Char.isWhitespace
  match cs with
  | '-' :: rest => (parseBody rest).map Neg.neg
  | '+' :: rest => parseBody rest
  | _ => parseBody cs

/-- Model of JS `parseFloat` applied to a cell value (numbers round-trip
through their string form unchanged; null/undefined stringify to
non-numeric text, hence `NaN`). -/
def jsParseFloat : JVal → Option ℚ
  | jnum q => some q
  | jstr s => jsParseFloatStr s
  | jnull => none

/-! ## CONFIG (src/unnamed/part_000) -/

def MONTHLY_RATE : ℚ := 50000
def WORKING_DAYS_PER_MONTH : ℚ := 20
def EXPECTED_DAILY_HOURS : ℚ := 8
def BUDGET_WARNING_THRESHOLD : ℚ := 90
def BUDGET_OVERRUN_THRESHOLD : ℚ := 100
def MAX_MATRIX_TASKS : Nat := 20
def EXCLUDED_EMPLOYEE_IDS : List String := ["158429"]

def HOURS_EMPLOYEE_NAME : List String := ["שם משפחה + פרטי", "שם", "Employee", "עובד"]
def HOURS_EMPLOYEE_ID : List String := ["מספר עובד", "מספר_עובד", "EmployeeId"]
def HOURS_EMPLOYEE_TYPE : List String := ["סוג  עובד"]
def HOURS_DATE : List String := ["תאריך דיווח", "תאריך", "Date"]
def HOURS_HOURS : List String := ["סה\"כ שעות מדווחות", "שעות", "Hours"]
def HOURS_TASK : List String := ["משימה", "פעילות", "Task"]
def HOURS_SUBTASK : List String := ["פעילות משנה", "SubTask", "Sub Task"]
def HOURS_CLASSIFICATION : List String := ["פעילות.סיווג חשבונאי", "סיווג", "Classification"]

def REQ_ID : List String := ["מספר", "מספר דרישה", "ID", "Requirement ID"]
def REQ_NAME : List String := ["נושא", "שם", "שם דרישה", "Name", "Subject"]
def REQ_BUDGET : List String := ["תקציב שנתי", "תקציב", "Budget", "Allocated"]
def REQ_ACTUAL : List String := ["ביצוע כולל בקשות רכש פתוחות", "בפועל", "עלות בפועל", "Actual", "Cost"]
def REQ_REQUESTER : List String := ["דורש הדרישה", "דורש", "Requester"]
def REQ_STATUS : List String := ["סטטוס", "Status"]

def WT_INVESTMENT : List String := ["השקעה", "השקעות", "פיתוח", "Investment", "Investments", "Development"]
def WT_EXPENSE : List String := ["הוצאה", "הוצאות", "תחזוקה", "Expense", "Expenses", "Maintenance"]
def WT_ABSENCE : List String := ["היעדרות", "העדרויות", "חופש", "מחלה", "Absence", "Absences", "Leave", "Sick"]

/-- Utilization status buckets (config.js `getUtilizationStatus`). -/
def getUtilizationStatus (percent : ℚ) : String :=
  if percent > BUDGET_OVERRUN_THRESHOLD then "danger"
  else if percent > BUDGET_WARNING_THRESHOLD then "warning"
  else "success"

/-! ## Column resolver (DataProcessor.findColumn) -/

/-- A raw tabular row: header → cell, in `Object.keys` order. -/
def RawRow : Type := List (String × JVal)

/-- Pass 1 of `findColumn`: for each candidate in order, the first row key
whose trimmed text equals the trimmed candidate. -/
def findExact (row : RawRow) : List String → Option JVal
  | [] => none
  | c :: rest =>
    match row.find? (fun kv => jsTrim kv.1 = jsTrim c) with
    | some kv => some kv.2
    | none => findExact row rest

/-- Pass 2 of `findColumn`: for each candidate in order, the first row key
whose trimmed lower-cased text contains the trimmed lower-cased candidate. -/
def findSubstr (row : RawRow) : List String → Option JVal
  | [] => none
  | c :: rest =>
    match row.find? (fun kv => strContains (jsToLower (jsTrim kv.1)) (jsToLower (jsTrim c))) with
    | some kv => some kv.2
    | none => findSubstr row rest

/-- DataProcessor.findColumn: exact pass, then substring pass, else null. -/
def findColumn (row : RawRow) (cands : List String) : Option JVal :=
  match findExact row cands with
  | some v => some v
  | none => findSubstr row cands

/-- The resolved cell with JS `null` for a miss. -/
def colv (row : RawRow) (cands : List String) : JVal :=
  (findColumn row cands).getD jnull

/-- The idiom `findColumn(row, cands) || ''` as it appears throughout the
normalizer. -/
def colOrEmpty (row : RawRow) (cands : List String) : JVal :=
  jsOr (colv row cands) (jstr "")

/-! ## Type coercion (DataProcessor.parseNumber, formatDate) -/

/-- DataProcessor.parseNumber: null/undefined → null; numbers as-is; else
stringify, trim, strip every char but digits `.` `-`, parseFloat, NaN → null. -/
def parseNumber : JVal → Option ℚ
  | jnull => none
  | jnum q => some q
  | jstr s =>
    jsParseFloatStr (String.mk ((trimChars s.toList).filter (fun c => c.isDigit || c = '.' || c = '-')))

/-- DataProcessor.formatDate. Falsy → ""; numeric spreadsheet serials are
rendered by an abstract injective encoding and parseable strings would be
reformatted by the host locale — neither rendering is modelled further, and
no claim depends on the rendered text, only on its use as an opaque set
element; unparseable strings are returned verbatim as in the code. -/
def formatDate : JVal → String
  | v =>
    if jsFalsy v then ""
    else
      match v with
      | jnum q => "serial:" ++ toString q
      | jstr s => s
      | jnull => ""

/-! ## Work-type classifier (DataProcessor.classifyWorkType) -/

/-- Does the lower-cased label contain some lower-cased keyword of the list? -/
def kwMatch (s : String) (kws : List String) : Bool :=
  kws.any (fun k => strContains (jsToLower s) (jsToLower k))

/-- DataProcessor.classifyWorkType: falsy → אחר (OTHER); else first of
INVESTMENT (השקעה), EXPENSE (הוצאה), ABSENCE (היעדרות) whose keyword list has
a case-insensitive substring match, else אחר. -/
def classifyWorkType (v : JVal) : String :=
  if jsFalsy v then "אחר"
  else
    let t := jsToString v
    if kwMatch t WT_INVESTMENT then "השקעה"
    else if kwMatch t WT_EXPENSE then "הוצאה"
    else if kwMatch t WT_ABSENCE then "היעדרות"
    else "אחר"

/-! ## Requirement-id extraction (DataProcessor.extractRequirement) -/

/-- DataProcessor.extractRequirement: the regex `^(\d,4-6)\s*-` matches iff the
string starts with 4 to 6 digits followed (after optional whitespace) by a
hyphen; a run of 7 or more leading digits cannot match since shortening the
digit group leaves a digit where the hyphen is required. -/
def extractRequirement (v : JVal) : String :=
  if jsFalsy v then ""
  else
    let cs := (jsToString v).toList
    let ds := cs.takeWhile Char.isDigit
    let rest := (cs.dropWhile Char.isDigit).dropWhile Char.isWhitespace
    if 4 ≤ ds.length ∧ ds.length ≤ 6 ∧ rest.headD ' ' = '-' then String.mk ds else ""

/-! ## Employee-type normalization (DataProcessor.normalizeEmployeeType) -/

/-- Collapse every whitespace run to a single space (JS `replace(/\s+/g, ' ')`). -/
def collapseWs : List Char → List Char
  | [] => []
  | [c] => [if c.isWhitespace then ' ' else c]
  | c1 :: c2 :: rest =>
    if c1.isWhitespace && c2.isWhitespace then collapseWs (c2 :: rest)
    else (if c1.isWhitespace then ' ' else c1) :: collapseWs (c2 :: rest)

/-- DataProcessor.normalizeEmployeeType: collapse whitespace, trim, lower;
MATAF synonyms → "עובד מתף", PROJECT synonyms → "עובד פרויקטלי",
otherwise the default fallback "עובד מתף". -/
def normalizeEmployeeType (v : JVal) : String :=
  let val := jsTrim (String.mk (collapseWs (jsToString (jsOr v (jstr ""))).toList))
  let lower := jsToLower val
  if strContains lower "מתף" || strContains lower "mataf" then "עובד מתף"
  else if strContains lower "פרויקט" || strContains lower "project" then "עובד פרויקטלי"
  else "עובד מתף"

/-! ## Hours record normalization (DataProcessor.processHours) -/

/-- A normalized hours row (the object literal built in processHours). -/
structure HoursRecord where
  employee : JVal
  employeeId : String
  employeeType : String
  date : String
  hours : ℚ
  task : JVal
  subtask : JVal
  classification : JVal
  type : String
  requirement : String
  raw : RawRow

/-- One raw hours row → HoursRecord (the `map` body of processHours). -/
def mkHoursRecord (row : RawRow) : HoursRecord :=
  let classificationValue := colOrEmpty row HOURS_CLASSIFICATION
  { employee := colOrEmpty row HOURS_EMPLOYEE_NAME
    employeeId := jsToString (colOrEmpty row HOURS_EMPLOYEE_ID)
    employeeType := normalizeEmployeeType (colOrEmpty row HOURS_EMPLOYEE_TYPE)
    date := formatDate (colv row HOURS_DATE)
    hours := (jsParseFloat (colv row HOURS_HOURS)).getD 0
    task := colOrEmpty row HOURS_TASK
    subtask := colOrEmpty row HOURS_SUBTASK
    classification := classificationValue
    type := classifyWorkType classificationValue
    requirement := extractRequirement (colv row HOURS_TASK)
    raw := row }

/-- processHours: map rows, drop falsy employee / non-positive hours, then
drop the configured excluded employee ids. -/
def processHoursList (rows : List RawRow) : List HoursRecord :=
  (((rows.map mkHoursRecord).filter
      (fun r => jsTruthy r.employee && decide (0 < r.hours))).filter
    (fun r => !(decide (r.employeeId ∈ EXCLUDED_EMPLOYEE_IDS))))

/-! ## Employee aggregation (DataProcessor.buildEmployeeSummary) -/

/-- One employee's summary. Percentage and count fields are zero until the
finalization pass writes them, mirroring the code which adds them after the
fold. -/
structure EmpSummary where
  name : JVal
  id : String
  employeeType : String
  type : String
  totalHours : ℚ
  investmentHours : ℚ
  expenseHours : ℚ
  absenceHours : ℚ
  requirements : Finset String
  days : Finset String
  tasks : Finset JVal
  investmentPercent : ℚ
  expensePercent : ℚ
  requirementCount : Nat
  dayCount : Nat
  taskCount : Nat

/-- Update an insertion-ordered map at `k`, creating `f init` for a fresh key
(JS object property creation appends in key order) and rewriting an existing
value through `f`. -/
def updAssoc {α : Type} (m : List (String × α)) (k : String) (init : α) (f : α → α) :
    List (String × α) :=
  match m with
  | [] => [(k, f init)]
  | (k1, v) :: rest =>
    if k1 = k then (k1, f v) :: rest else (k1, v) :: updAssoc rest k init f

/-- Object key for one record: `row.employeeId || row.employee` (the fallback
value is coerced to a string when used as a property key). -/
def summaryKey (r : HoursRecord) : String :=
  if r.employeeId = "" then jsToString r.employee else r.employeeId

/-- Fresh summary created on first sight of a key. -/
def initSummary (r : HoursRecord) : EmpSummary :=
  { name := r.employee, id := r.employeeId, employeeType := r.employeeType
    type := r.employeeType
    totalHours := 0, investmentHours := 0, expenseHours := 0, absenceHours := 0
    requirements := ∅, days := ∅, tasks := ∅
    investmentPercent := 0, expensePercent := 0
    requirementCount := 0, dayCount := 0, taskCount := 0 }

/-- Accumulate one record into a summary. The code's else-if chain on
`row.type` is written per bucket; the branches compare against distinct
string literals, so at most one fires. -/
def addRow (r : HoursRecord) (e : EmpSummary) : EmpSummary :=
  { e with
    totalHours := e.totalHours + r.hours
    investmentHours := if r.type = "השקעה" then e.investmentHours + r.hours else e.investmentHours
    expenseHours := if r.type = "הוצאה" then e.expenseHours + r.hours else e.expenseHours
    absenceHours := if r.type = "היעדרות" then e.absenceHours + r.hours else e.absenceHours
    requirements := if r.requirement ≠ "" then insert r.requirement e.requirements else e.requirements
    days := if r.date ≠ "" then insert r.date e.days else e.days
    tasks := if jsTruthy r.task then insert r.task e.tasks else e.tasks }

/-- The accumulation fold of buildEmployeeSummary. -/
def foldSummaries (records : List HoursRecord) : List (String × EmpSummary) :=
  records.foldl (fun m r => updAssoc m (summaryKey r) (initSummary r) (addRow r)) []

/-- Strip a leading "עובד" qualifier word (regex `^עובד\s+` — the word plus at
least one whitespace char, greedily). -/
def stripEmpQualifier (s : String) : String :=
  match s.toList with
  | 'ע' :: 'ו' :: 'ב' :: 'ד' :: c :: rest =>
    if c.isWhitespace then String.mk (rest.dropWhile Char.isWhitespace) else s
  | _ => s

/-- The second-stage employee-type normalization executed during
finalization: nonempty text has the qualifier stripped and is mapped by
containment to "מתף" / "פרויקטלי", unmatched text stays, empty text becomes
"לא מוגדר". -/
def finalType (t : String) : String :=
  if jsTrim t ≠ "" then
    let n := jsTrim (stripEmpQualifier (jsTrim t))
    if strContains n "מתף" || strContains n "MATAF" then "מתף"
    else if strContains n "פרויקט" || strContains n "PROJECT" then "פרויקטלי"
    else n
  else "לא מוגדר"

/-- Finalization pass: derives percentages, set sizes and the displayed type. -/
def finalizeSummary (e : EmpSummary) : EmpSummary :=
  { e with
    investmentPercent := if 0 < e.totalHours then e.investmentHours / e.totalHours * 100 else 0
    expensePercent := if 0 < e.totalHours then e.expenseHours / e.totalHours * 100 else 0
    requirementCount := e.requirements.card
    dayCount := e.days.card
    taskCount := e.tasks.card
    type := finalType e.employeeType }

/-- buildEmployeeSummary: fold then finalize, keeping key insertion order. -/
def buildEmployeeSummary (records : List HoursRecord) : List (String × EmpSummary) :=
  (foldSummaries records).map (fun kv => (kv.1, finalizeSummary kv.2))

/-! ## Task aggregation (DataProcessor.buildTaskMatrix) -/

/-- Accumulator per task while folding. -/
structure TaskAcc where
  employees : Finset JVal
  totalHours : ℚ
  type : String

/-- One entry of the rendered matrix. The code materializes the employee set
as an array; the set itself is kept here, its enumeration order being unused
by any claim. -/
structure TaskEntry where
  name : String
  employeeCount : Nat
  totalHours : ℚ
  type : String
  employees : Finset JVal

/-- Fresh accumulator on first sight of a task key (`row.type || 'אחר'`). -/
def initTask (r : HoursRecord) : TaskAcc :=
  { employees := ∅, totalHours := 0, type := if r.type = "" then "אחר" else r.type }

/-- Accumulate one record into a task: add the employee, add the hours, and
overwrite the displayed type by any non-OTHER classification (last wins). -/
def stepTask (r : HoursRecord) (a : TaskAcc) : TaskAcc :=
  { employees := insert r.employee a.employees
    totalHours := a.totalHours + r.hours
    type := if r.type ≠ "" ∧ r.type ≠ "אחר" then r.type else a.type }

/-- The task fold: rows with a falsy task are skipped; the object key is the
task value's string form. -/
def taskFold (records : List HoursRecord) : List (String × TaskAcc) :=
  records.foldl
    (fun m r =>
      if jsTruthy r.task then updAssoc m (jsToString r.task) (initTask r) (stepTask r) else m)
    []

/-- Materialize one sorted entry. -/
def toEntry (kv : String × TaskAcc) : TaskEntry :=
  { name := kv.1, employeeCount := kv.2.employees.card, totalHours := kv.2.totalHours
    type := kv.2.type, employees := kv.2.employees }

/-- Comparator model for `(a, b) => b[1].employees.size - a[1].employees.size`
under a stable sort: `a` may stay before `b` iff `b`'s count is at most `a`'s. -/
def taskGE (a b : String × TaskAcc) : Bool :=
  decide (b.2.employees.card ≤ a.2.employees.card)

/-- buildTaskMatrix with an explicit cap: stable-sort the entries by
descending distinct-employee count, slice to the cap, materialize. -/
def buildTaskMatrixCap (records : List HoursRecord) (cap : Nat) : List TaskEntry :=
  (((taskFold records).mergeSort taskGE).take cap).map toEntry

/-- buildTaskMatrix as called, with `CONFIG.MAX_MATRIX_TASKS || 20`. -/
def buildTaskMatrix (records : List HoursRecord) : List TaskEntry :=
  buildTaskMatrixCap records (if MAX_MATRIX_TASKS = 0 then 20 else MAX_MATRIX_TASKS)

/-! ## Requirements normalization and hours linking -/

/-- A normalized requirement row. `actualHours`/`actualCost` are zero until
linkHoursToRequirements writes them (in the code they are absent until then,
and every read happens after a link pass). -/
structure ReqRecord where
  id : String
  name : String
  budget : ℚ
  actual : ℚ
  utilization : ℚ
  status : String
  utilizationStatus : String
  requester : String
  actualHours : ℚ
  actualCost : ℚ
  raw : RawRow

/-- One raw requirements row → ReqRecord (the `map` body of
processRequirements). -/
def mkReqRecord (row : RawRow) : ReqRecord :=
  let budget := (parseNumber (colv row REQ_BUDGET)).getD 0
  let actual := (parseNumber (colv row REQ_ACTUAL)).getD 0
  let utilization := if 0 < budget then actual / budget * 100 else 0
  let fileStatus := jsTrim (jsToString (colOrEmpty row REQ_STATUS))
  { id := jsToString (colOrEmpty row REQ_ID)
    name := jsToString (colOrEmpty row REQ_NAME)
    budget := budget
    actual := actual
    utilization := utilization
    status := if fileStatus ≠ "" then fileStatus else getUtilizationStatus utilization
    utilizationStatus := getUtilizationStatus utilization
    requester := jsToString (colOrEmpty row REQ_REQUESTER)
    actualHours := 0
    actualCost := 0
    raw := row }

/-- processRequirements (before linking): rows lacking both id and name are
dropped. -/
def processRequirementsList (rows : List RawRow) : List ReqRecord :=
  (rows.map mkReqRecord).filter (fun r => decide (r.id ≠ "") || decide (r.name ≠ ""))

/-- The hours-per-requirement accumulation object, modelled as a total map
with default 0 (the code's `m[k] || 0` read makes an absent key and a zero
entry indistinguishable). Rows with an empty requirement id are skipped. -/
def hoursPerReq (hrs : List HoursRecord) : String → ℚ :=
  hrs.foldl
    (fun m r =>
      if r.requirement ≠ "" then fun k => if k = r.requirement then m k + r.hours else m k
      else m)
    (fun _ => 0)

/-- The configured hourly rate `MONTHLY_RATE / (WORKING_DAYS_PER_MONTH * EXPECTED_DAILY_HOURS)`. -/
def hourlyRate : ℚ := MONTHLY_RATE / (WORKING_DAYS_PER_MONTH * EXPECTED_DAILY_HOURS)

/-- linkHoursToRequirements: write each requirement's accumulated hours and
their cost at the configured hourly rate. -/
def linkHours (reqs : List ReqRecord) (hrs : List HoursRecord) : List ReqRecord :=
  reqs.map (fun r =>
    { r with
      actualHours := hoursPerReq hrs r.id
      actualCost := hoursPerReq hrs r.id * hourlyRate })

/-! ## DataProcessor session state (updateData / processHours / processRequirements) -/

/-- The DataProcessor fields touched by the claims. -/
structure DPState where
  hoursData : List RawRow
  requirementsData : List RawRow
  processedHours : List HoursRecord
  processedRequirements : List ReqRecord
  employeeSummary : List (String × EmpSummary)
  taskMatrix : List TaskEntry

/-- The freshly constructed DataProcessor. -/
def emptyDP : DPState :=
  { hoursData := [], requirementsData := [], processedHours := []
    processedRequirements := [], employeeSummary := [], taskMatrix := [] }

/-- processHours: renormalize hours, rebuild the employee summary and the
task matrix. It does not touch processedRequirements. -/
def processHoursState (s : DPState) : DPState :=
  let ph := processHoursList s.hoursData
  { s with
    processedHours := ph
    employeeSummary := buildEmployeeSummary ph
    taskMatrix := buildTaskMatrix ph }

/-- processRequirements: renormalize requirements and relink against the
currently processed hours. -/
def processRequirementsState (s : DPState) : DPState :=
  { s with
    processedRequirements :=
      linkHours (processRequirementsList s.requirementsData) s.processedHours }

/-- Which dataset an updateData call carries. -/
inductive DType where
  | hours
  | requirements

/-- DataProcessor.updateData. -/
def updateData (s : DPState) (t : DType) (data : List RawRow) : DPState :=
  match t with
  | .hours => processHoursState { s with hoursData := data }
  | .requirements => processRequirementsState { s with requirementsData := data }

/-! ## Team filter (src/js/modules/team-filter.js) -/

/-- One team of the teams structure. -/
structure Team where
  id : String
  name : String
  manager : String
  employees : List String

/-- The TeamFilter fields the claims touch (`teamsData` is null until the
structure loads). -/
structure TeamFilter where
  teamsData : Option (List Team)
  currentTeam : String

/-- The loaded team list ([] while teamsData is null). -/
def teamsOf (tf : TeamFilter) : List Team :=
  match tf.teamsData with
  | none => []
  | some ts => ts

/-- TeamFilter.getTeam. -/
def getTeam (tf : TeamFilter) (teamId : String) : Option Team :=
  match tf.teamsData with
  | none => none
  | some ts => ts.find? (fun t => t.id = teamId)

/-- TeamFilter.isEmployeeInCurrentTeam: "all" and an unknown current team are
member-of for everyone; otherwise trimmed string equality against the team's
employee ids. -/
def isEmployeeInCurrentTeam (tf : TeamFilter) (employeeId : String) : Bool :=
  if tf.currentTeam = "all" then true
  else
    match getTeam tf tf.currentTeam with
    | none => true
    | some team => team.employees.any (fun i => jsTrim i = jsTrim employeeId)

/-- The id probed by filterEmployees: `emp.id || emp.employeeId || emp['מספר עובד']`;
an EmpSummary has no `employeeId` or `'מספר עובד'` property, so an empty id
falls through to `undefined`, which `String(...)` renders as "undefined". -/
def empIdOf (e : EmpSummary) : String :=
  if e.id = "" then "undefined" else e.id

/-- The id probed by filterHoursData: `row.employeeId || row['מספר עובד']`. -/
def rowIdOf (r : HoursRecord) : String :=
  if r.employeeId = "" then "undefined" else r.employeeId

/-- TeamFilter.filterEmployees. -/
def filterEmployees (tf : TeamFilter) (employees : List EmpSummary) : List EmpSummary :=
  if tf.currentTeam = "all" then employees
  else employees.filter (fun e => isEmployeeInCurrentTeam tf (empIdOf e))

/-- TeamFilter.filterHoursData. -/
def filterHoursData (tf : TeamFilter) (hoursData : List HoursRecord) : List HoursRecord :=
  if tf.currentTeam = "all" then hoursData
  else hoursData.filter (fun r => isEmployeeInCurrentTeam tf (rowIdOf r))

/-! ## Shared helper lemmas -/

/-- Values of an `updAssoc` result satisfy `P` when the old values do, the
freshly created value does, and `f` preserves `P`. -/
theorem updAssoc_forall {α : Type} (P : α → Prop) (k : String) (init : α) (f : α → α) :
    ∀ (m : List (String × α)), (∀ p ∈ m, P p.2) → P (f init) → (∀ v, P v → P (f v)) →
      ∀ p ∈ updAssoc m k init f, P p.2 := by
  intro m
  induction m with
  | nil =>
    intro _ hnew _ p hp
    simp only [updAssoc, List.mem_singleton] at hp
    rw [hp]
    exact hnew
  | cons hd tl ih =>
    intro hm hnew hstep p hp
    obtain ⟨k1, v⟩ := hd
    simp only [updAssoc] at hp
    by_cases hk : k1 = k
    · rw [if_pos hk] at hp
      rcases List.mem_cons.mp hp with h | h
      · rw [h]
        exact hstep v (hm (k1, v) (List.mem_cons_self _ _))
      · exact hm p (List.mem_cons_of_mem _ h)
    · rw [if_neg hk] at hp
      rcases List.mem_cons.mp hp with h | h
      · rw [h]
        exact hm (k1, v) (List.mem_cons_self _ _)
      · exact ih (fun q hq => hm q (List.mem_cons_of_mem _ hq)) hnew hstep p h

/-- Generic preservation through a left fold: if every accumulator step takes
`P`-good states to `P`-good states for the elements that occur, the fold
result is `P`-good. -/
theorem foldl_forall {α β : Type} (P : β → Prop) (Q : α → Prop)
    (g : List β → α → List β)
    (hg : ∀ a m, Q a → (∀ p ∈ m, P p) → ∀ p ∈ g m a, P p) :
    ∀ (l : List α), (∀ a ∈ l, Q a) → ∀ m, (∀ p ∈ m, P p) → ∀ p ∈ l.foldl g m, P p := by
  intro l
  induction l with
  | nil => intro _ m hm p hp; exact hm p hp
  | cons a rest ih =>
    intro hQ m hm p hp
    rw [List.foldl_cons] at hp
    exact ih (fun x hx => hQ x (List.mem_cons_of_mem _ hx)) (g m a)
      (hg a m (hQ a (List.mem_cons_self _ _)) hm) p hp

/-- Every record surviving processHours has a truthy employee, positive hours,
and an id outside the exclusion list. -/
theorem processHours_sound (raws : List RawRow) :
    ∀ r ∈ processHoursList raws,
      jsTruthy r.employee = true ∧ 0 < r.hours ∧ r.employeeId ∉ EXCLUDED_EMPLOYEE_IDS := by
  intro r hr
  unfold processHoursList at hr
  have h2 := List.mem_filter.mp hr
  have h1 := List.mem_filter.mp h2.1
  have h1b := h1.2
  simp only [Bool.and_eq_true, decide_eq_true_eq] at h1b
  have hx := h2.2
  simp only [Bool.not_eq_true', decide_eq_false_iff_not] at hx
  exact ⟨h1b.1, h1b.2, hx⟩

/-- Every record surviving processHours is `mkHoursRecord` of some raw row. -/
theorem processHours_shape (raws : List RawRow) :
    ∀ r ∈ processHoursList raws, ∃ row, r = mkHoursRecord row := by
  intro r hr
  unfold processHoursList at hr
  have h2 := List.mem_filter.mp hr
  have h1 := List.mem_filter.mp h2.1
  obtain ⟨row, _, hrow⟩ := List.mem_map.mp h1.1
  exact ⟨row, hrow.symm⟩

/-! ## C5 — column resolver order stability -/

/-- The resolver algorithm as the spec words it (for the refinement proof):
first exact trimmed match over candidates in order, else first trimmed
case-insensitive substring match over candidates in order, else null. -/
def findColumnSpec (row : RawRow) (cands : List String) : Option JVal :=
  match cands.findSome?
      (fun c => (row.find? (fun kv => jsTrim kv.1 = jsTrim c)).map (fun kv => kv.2)) with
  | some v => some v
  | none =>
    cands.findSome?
      (fun c =>
        (row.find? (fun kv => strContains (jsToLower (jsTrim kv.1)) (jsToLower (jsTrim c)))).map
          (fun kv => kv.2))

theorem findExact_eq_findSome (row : RawRow) :
    ∀ cands, findExact row cands =
      cands.findSome? (fun c => (row.find? (fun kv => jsTrim kv.1 = jsTrim c)).map (fun kv => kv.2)) := by
  intro cands
  induction cands with
  | nil => rfl
  | cons c rest ih =>
    simp only [findExact, List.findSome?_cons]
    cases row.find? (fun kv => jsTrim kv.1 = jsTrim c) with
    | none => simpa using ih
    | some kv => rfl

theorem findSubstr_eq_findSome (row : RawRow) :
    ∀ cands, findSubstr row cands =
      cands.findSome?
        (fun c =>
          (row.find? (fun kv => strContains (jsToLower (jsTrim kv.1)) (jsToLower (jsTrim c)))).map
            (fun kv => kv.2)) := by
  intro cands
  induction cands with
  | nil => rfl
  | cons c rest ih =>
    simp only [findSubstr, List.findSome?_cons]
    cases row.find? (fun kv => strContains (jsToLower (jsTrim kv.1)) (jsToLower (jsTrim c))) with
    | none => simpa using ih
    | some kv => rfl

/-- C5: the column resolver runs an exact trimmed pass over the candidates in
order, falls back to a trimmed case-insensitive substring pass in candidate
order only when the exact pass misses, and otherwise yields null — and it is
order-stable: with candidates ["A", "B"] and a row carrying both headers,
the value under "A" wins, whichever header comes first in the row. -/
theorem c5_find_column_order_stable :
    (∀ (row : RawRow) (cands : List String), findColumn row cands = findColumnSpec row cands) ∧
    (∀ v1 v2 : JVal,
      findColumn [("A", v1), ("B", v2)] ["A", "B"] = some v1 ∧
      findColumn [("B", v2), ("A", v1)] ["A", "B"] = some v1) := by
  constructor
  · intro row cands
    unfold findColumn findColumnSpec
    rw [findExact_eq_findSome, findSubstr_eq_findSome]
  · intro v1 v2
    constructor <;> rfl

/-! ## C6 — work-type classifier precedence -/

/-- C6: the classifier checks INVESTMENT, then EXPENSE, then ABSENCE keyword
containment (case-insensitive) and answers אחר (OTHER) when nothing matches;
a label matching both an INVESTMENT and an ABSENCE keyword classifies as
INVESTMENT (השקעה). -/
theorem c6_classifier_precedence (s : String) :
    (kwMatch s WT_INVESTMENT = true → classifyWorkType (jstr s) = "השקעה") ∧
    (kwMatch s WT_INVESTMENT = false → kwMatch s WT_EXPENSE = true →
      classifyWorkType (jstr s) = "הוצאה") ∧
    (kwMatch s WT_INVESTMENT = false → kwMatch s WT_EXPENSE = false →
      kwMatch s WT_ABSENCE = true → classifyWorkType (jstr s) = "היעדרות") ∧
    (kwMatch s WT_INVESTMENT = false → kwMatch s WT_EXPENSE = false →
      kwMatch s WT_ABSENCE = false → classifyWorkType (jstr s) = "אחר") ∧
    (kwMatch "השקעה חופש" WT_INVESTMENT = true ∧ kwMatch "השקעה חופש" WT_ABSENCE = true ∧
      classifyWorkType (jstr "השקעה חופש") = "השקעה") := by
  by_cases hs : s = ""
  · subst hs
    refine ⟨fun h => absurd h (by decide), fun _ h => absurd h (by decide),
      fun _ _ h => absurd h (by decide), fun _ _ _ => by decide, by decide⟩
  · have hfalsy : jsFalsy (jstr s) = false := by
      simp only [jsFalsy, decide_eq_false_iff_not]
      exact hs
    refine ⟨fun h1 => ?_, fun h1 h2 => ?_, fun h1 h2 h3 => ?_, fun h1 h2 h3 => ?_, by decide⟩ <;>
      simp [classifyWorkType, hfalsy, jsToString, h1]
    all_goals simp_all

/-- C6 witness: the label carrying both an INVESTMENT keyword and an ABSENCE
keyword, resolved through the theorem's first branch. -/
theorem c6_witness : classifyWorkType (jstr "השקעה חופש") = "השקעה" :=
  (c6_classifier_precedence "השקעה חופש").1 (by decide)

/-! ## C4 — hours coercion (corrected: parseFloat, not the parseNumber rule) -/

/-- A raw hours row whose hours cell reads "1,234". -/
def row4 : RawRow := [("Employee", jstr "X"), ("Hours", jstr "1,234")]

/-- C4 counterexample: the normalizer takes the hours cell through JS
`parseFloat`, so the thousands-separated string "1,234" yields 1, while the
claimed 4.2 `coerceNumber` rule (`parseNumber`) yields 1234. -/
theorem c4_counterexample :
    (mkHoursRecord row4).hours = 1 ∧ parseNumber (jstr "1,234") = some 1234 ∧ (1 : ℚ) ≠ 1234 := by
  refine ⟨by decide, by decide, by norm_num⟩

/-- C4 (amended): the hours field is coerced by JS `parseFloat` applied to
the raw resolved cell — numeric values pass through unchanged, strings parse
as their longest leading numeric prefix, anything unparseable (including an
unresolved column) becomes 0 — so locale noise such as a thousands separator
truncates the value instead of being stripped. -/
theorem c4_hours_use_parsefloat :
    (∀ row : RawRow, (mkHoursRecord row).hours = (jsParseFloat (colv row HOURS_HOURS)).getD 0) ∧
    (∀ q : ℚ, jsParseFloat (jnum q) = some q) ∧
    jsParseFloatStr "1,234" = some 1 ∧ jsParseFloat jnull = none := by
  exact ⟨fun row => rfl, fun q => rfl, by decide, rfl⟩

/-! ## C2 / C3 — requirement linking -/

/-- Total hours over the normalized records whose extracted requirement id
equals `k`, records with an empty id skipped. -/
def sumFor (hrs : List HoursRecord) (k : String) : ℚ :=
  ((hrs.filter (fun h => decide (h.requirement = k) && decide (h.requirement ≠ ""))).map
    (fun h => h.hours)).sum

/-- The accumulation object of linkHoursToRequirements reads back as the
per-id filtered sum. -/
theorem hoursPerReq_foldl (hrs : List HoursRecord) :
    ∀ (m : String → ℚ) (k : String),
      (hrs.foldl
        (fun m r =>
          if r.requirement ≠ "" then fun j => if j = r.requirement then m j + r.hours else m j
          else m)
        m) k = m k + sumFor hrs k := by
  induction hrs with
  | nil => intro m k; simp [sumFor]
  | cons r rest ih =>
    intro m k
    rw [List.foldl_cons]
    by_cases hreq : r.requirement = ""
    · rw [if_neg (by simp [hreq])]
      rw [ih]
      have : sumFor (r :: rest) k = sumFor rest k := by
        simp [sumFor, List.filter_cons, hreq]
      rw [this]
    · rw [if_pos hreq]
      rw [ih]
      by_cases hk : k = r.requirement
      · have hk2 : ¬(k = "") := fun h => hreq (hk.symm.trans h)
        have : sumFor (r :: rest) k = r.hours + sumFor rest k := by
          simp [sumFor, List.filter_cons, ← hk, hk2]
        rw [this, if_pos hk]
        ring
      · have : sumFor (r :: rest) k = sumFor rest k := by
          have : ¬(r.requirement = k) := fun h => hk h.symm
          simp [sumFor, List.filter_cons, this]
        rw [this, if_neg hk]

theorem hoursPerReq_eq_sumFor (hrs : List HoursRecord) (k : String) :
    hoursPerReq hrs k = sumFor hrs k := by
  have h := hoursPerReq_foldl hrs (fun _ => 0) k
  simpa [hoursPerReq] using h

/-- Linking writes, for every requirement, the id-filtered hours sum and its
cost at the configured hourly rate. -/
theorem linkHours_map (reqs : List ReqRecord) (hrs : List HoursRecord) :
    (linkHours reqs hrs).map (fun r => (r.id, r.actualHours, r.actualCost))
      = reqs.map (fun r => (r.id, sumFor hrs r.id, sumFor hrs r.id * hourlyRate)) := by
  unfold linkHours
  rw [List.map_map]
  apply List.map_congr_left
  intro r _
  simp [hoursPerReq_eq_sumFor]

/-- C2: after requirement linking, every RequirementRecord carries
actualHours equal to the sum of hours of the normalized HoursRecords whose
extracted requirement id equals its id (empty ids skipped, 0 when none), and
actualCost equal to actualHours times
MONTHLY_RATE / (WORKING_DAYS_PER_MONTH * EXPECTED_DAILY_HOURS)
with the configured constants 50000, 20 and 8. -/
theorem c2_requirement_link :
    (∀ (reqs : List ReqRecord) (hrs : List HoursRecord),
      (linkHours reqs hrs).map (fun r => (r.id, r.actualHours, r.actualCost))
        = reqs.map (fun r => (r.id, sumFor hrs r.id, sumFor hrs r.id * hourlyRate))) ∧
    hourlyRate = 50000 / (20 * 8) := by
  exact ⟨linkHours_map, rfl⟩

/-- The hours row and requirement row of the C3 counterexample. -/
def hoursRow3 : RawRow := [("Employee", jstr "X"), ("Hours", jnum 5), ("Task", jstr "123456 - Build")]

def reqRow3 : RawRow := [("ID", jstr "123456")]

/-- C3 counterexample: loading requirements first and hours second leaves the
link stale — requirement "123456" keeps actualHours 0 although the current
normalized hours carry 5 hours for it, while the opposite load order yields
5 — so the link is not recomputed whenever either dataset changes and the
two orders disagree. -/
theorem c3_counterexample :
    ((updateData (updateData emptyDP .requirements [reqRow3]) .hours [hoursRow3]).processedRequirements.map
        (fun r => r.actualHours)) = [0]
    ∧ sumFor
        (updateData (updateData emptyDP .requirements [reqRow3]) .hours [hoursRow3]).processedHours
        "123456" = 5
    ∧ ((updateData (updateData emptyDP .hours [hoursRow3]) .requirements [reqRow3]).processedRequirements.map
        (fun r => r.actualHours)) = [5]
    ∧ (0 : ℚ) ≠ 5 := by
  refine ⟨by decide, by with_unfolding_all rfl, by with_unfolding_all rfl, by norm_num⟩

/-- C3 (amended): updateData recomputes the hours-to-requirements link only
when the requirements dataset changes: a requirements update links every
requirement to the sum of the currently normalized hours carrying its id (at
the configured rate), while an hours update leaves processedRequirements
untouched, so loading requirements before hours leaves stale linked values. -/
theorem c3_link_only_on_requirements (s : DPState) (data : List RawRow) :
    ((updateData s .requirements data).processedRequirements.map
        (fun r => (r.id, r.actualHours, r.actualCost))
      = (processRequirementsList data).map
          (fun r => (r.id, sumFor s.processedHours r.id, sumFor s.processedHours r.id * hourlyRate)))
    ∧ (updateData s .hours data).processedRequirements = s.processedRequirements := by
  exact ⟨linkHours_map (processRequirementsList data) s.processedHours, rfl⟩

/-! ## C7 — dropped rows -/

/-- C7: every raw hours row with a non-positive coerced hours value, an empty
resolved employee name, or an excluded employee id is dropped by
normalization, so every surviving HoursRecord — the sole hours input of the
employee summary, the task matrix and the requirement link — has a nonempty
employee, positive hours, and a non-excluded id. -/
theorem c7_dropped_rows (raws : List RawRow) :
    (processHoursList raws).Forall
      (fun r => r.employee ≠ jstr "" ∧ 0 < r.hours ∧ r.employeeId ∉ EXCLUDED_EMPLOYEE_IDS) := by
  rw [List.forall_iff_forall_mem]
  intro r hr
  obtain ⟨hemp, hpos, hexc⟩ := processHours_sound raws r hr
  refine ⟨?_, hpos, hexc⟩
  intro he
  rw [he] at hemp
  simp [jsTruthy, jsFalsy] at hemp

/-! ## C8 — employee-type normalization (corrected: UNDEFINED is unreachable) -/

/-- The row-level normalization collapses every raw value to one of the two
qualified forms, defaulting to "עובד מתף". -/
theorem normalizeEmployeeType_two (v : JVal) :
    normalizeEmployeeType v = "עובד מתף" ∨ normalizeEmployeeType v = "עובד פרויקטלי" := by
  simp only [normalizeEmployeeType]
  split_ifs <;> simp

/-- Every surviving record carries one of the two qualified type strings. -/
theorem processHours_employeeType (raws : List RawRow) :
    ∀ r ∈ processHoursList raws,
      r.employeeType = "עובד מתף" ∨ r.employeeType = "עובד פרויקטלי" := by
  intro r hr
  obtain ⟨row, hrow⟩ := processHours_shape raws r hr
  rw [hrow]
  exact normalizeEmployeeType_two _

/-- A raw hours row with no employee-type column at all (the raw type text is
empty). -/
def row8 : RawRow := [("Employee", jstr "X"), ("Hours", jnum 1)]

set_option maxRecDepth 8000 in
/-- C8 counterexample: for the row with an empty raw employee-type string the
summary type is "מתף" (MATAF), not "לא מוגדר" (UNDEFINED) as the claim's
empty-text rule would give — the row-level normalizer has already defaulted
the empty text to "עובד מתף" before the summary-level mapping runs. -/
theorem c8_counterexample :
    (buildEmployeeSummary (processHoursList [row8])).map (fun kv => kv.2.type) = ["מתף"]
    ∧ "מתף" ≠ "לא מוגדר" := by
  constructor
  · with_unfolding_all rfl
  · decide

/-- C8 (amended): the summary type is the composition of the row-level
normalizer — which maps MATAF synonyms to "עובד מתף", PROJECT synonyms to
"עובד פרויקטלי" and everything else (empty text included) to the default
"עובד מתף" — with the summary-level pass that strips the leading "עובד"
qualifier and maps by containment; hence every summary's type is "מתף" or
"פרויקטלי" and the UNDEFINED and keep-as-is branches never fire. -/
theorem c8_type_two_values (raws : List RawRow) :
    (buildEmployeeSummary (processHoursList raws)).Forall
      (fun kv => kv.2.type = "מתף" ∨ kv.2.type = "פרויקטלי") := by
  rw [List.forall_iff_forall_mem]
  intro kv hkv
  unfold buildEmployeeSummary at hkv
  obtain ⟨kv0, hkv0, hmap⟩ := List.mem_map.mp hkv
  have hP : kv0.2.employeeType = "עובד מתף" ∨ kv0.2.employeeType = "עובד פרויקטלי" := by
    refine foldl_forall
      (fun p : String × EmpSummary =>
        p.2.employeeType = "עובד מתף" ∨ p.2.employeeType = "עובד פרויקטלי")
      (fun r => r.employeeType = "עובד מתף" ∨ r.employeeType = "עובד פרויקטלי")
      _ ?_ (processHoursList raws) (processHours_employeeType raws) [] (by simp) kv0 hkv0
    intro r m hQ hm p hp
    have hstep : ∀ v : EmpSummary,
        (v.employeeType = "עובד מתף" ∨ v.employeeType = "עובד פרויקטלי") →
          ((addRow r v).employeeType = "עובד מתף" ∨
            (addRow r v).employeeType = "עובד פרויקטלי") :=
      fun v hv => hv
    have hinit : (addRow r (initSummary r)).employeeType = "עובד מתף" ∨
        (addRow r (initSummary r)).employeeType = "עובד פרויקטלי" := hQ
    exact updAssoc_forall
      (fun e => e.employeeType = "עובד מתף" ∨ e.employeeType = "עובד פרויקטלי")
      (summaryKey r) (initSummary r) (addRow r) m hm hinit hstep p hp
  rw [← hmap]
  rcases hP with h | h
  · left
    show finalType kv0.2.employeeType = "מתף"
    rw [h]
    decide
  · right
    show finalType kv0.2.employeeType = "פרויקטלי"
    rw [h]
    decide

/-! ## C1 — employee summary bucket and percentage invariants -/

/-- The fold invariant: nonnegative buckets whose sum never exceeds the
running total. -/
def bucketInv (e : EmpSummary) : Prop :=
  0 ≤ e.investmentHours ∧ 0 ≤ e.expenseHours ∧ 0 ≤ e.absenceHours ∧
    e.investmentHours + e.expenseHours + e.absenceHours ≤ e.totalHours

theorem initSummary_bucket (r : HoursRecord) : bucketInv (initSummary r) := by
  unfold bucketInv initSummary
  norm_num

theorem addRow_bucket (r : HoursRecord) (e : EmpSummary) (hr : 0 < r.hours)
    (he : bucketInv e) : bucketInv (addRow r e) := by
  obtain ⟨h1, h2, h3, h4⟩ := he
  unfold bucketInv addRow
  dsimp only
  by_cases hA : r.type = "השקעה"
  · have hB : ¬r.type = "הוצאה" := by rw [hA]; decide
    have hC : ¬r.type = "היעדרות" := by rw [hA]; decide
    rw [if_pos hA, if_neg hB, if_neg hC]
    exact ⟨by linarith, h2, h3, by linarith⟩
  · by_cases hB : r.type = "הוצאה"
    · have hC : ¬r.type = "היעדרות" := by rw [hB]; decide
      rw [if_neg hA, if_pos hB, if_neg hC]
      exact ⟨h1, by linarith, h3, by linarith⟩
    · by_cases hC : r.type = "היעדרות"
      · rw [if_neg hA, if_neg hB, if_pos hC]
        exact ⟨h1, h2, by linarith, by linarith⟩
      · rw [if_neg hA, if_neg hB, if_neg hC]
        exact ⟨h1, h2, h3, by linarith⟩

theorem foldSummaries_bucket (records : List HoursRecord)
    (hrec : ∀ r ∈ records, 0 < r.hours) :
    ∀ p ∈ foldSummaries records, bucketInv p.2 := by
  refine foldl_forall (fun p : String × EmpSummary => bucketInv p.2) (fun r => 0 < r.hours)
    _ ?_ records hrec [] (by simp)
  intro r m hQ hm p hp
  exact updAssoc_forall bucketInv (summaryKey r) (initSummary r) (addRow r) m hm
    (addRow_bucket r (initSummary r) hQ (initSummary_bucket r))
    (fun v hv => addRow_bucket r v hQ hv) p hp

/-- Percentage bound for `bucket / total * 100` guarded by a positivity test. -/
theorem pct_bounds (num tot : ℚ) (hnum : 0 ≤ num) (hle : num ≤ tot) :
    0 ≤ (if 0 < tot then num / tot * 100 else 0) ∧
      (if 0 < tot then num / tot * 100 else 0) ≤ 100 := by
  by_cases ht : 0 < tot
  · rw [if_pos ht]
    constructor
    · exact mul_nonneg (div_nonneg hnum (le_of_lt ht)) (by norm_num)
    · have hone : num / tot ≤ 1 := (div_le_one ht).mpr hle
      calc num / tot * 100 ≤ 1 * 100 := by
            exact mul_le_mul_of_nonneg_right hone (by norm_num)
        _ = 100 := by norm_num
  · rw [if_neg ht]
    norm_num

theorem finalize_bounds (e : EmpSummary) (he : bucketInv e) :
    (finalizeSummary e).investmentHours + (finalizeSummary e).expenseHours +
        (finalizeSummary e).absenceHours ≤ (finalizeSummary e).totalHours ∧
      0 ≤ (finalizeSummary e).investmentPercent ∧ (finalizeSummary e).investmentPercent ≤ 100 ∧
      0 ≤ (finalizeSummary e).expensePercent ∧ (finalizeSummary e).expensePercent ≤ 100 := by
  obtain ⟨h1, h2, h3, h4⟩ := he
  have hi : e.investmentHours ≤ e.totalHours := by linarith
  have hx : e.expenseHours ≤ e.totalHours := by linarith
  obtain ⟨pi1, pi2⟩ := pct_bounds e.investmentHours e.totalHours h1 hi
  obtain ⟨pe1, pe2⟩ := pct_bounds e.expenseHours e.totalHours h2 hx
  exact ⟨h4, pi1, pi2, pe1, pe2⟩

/-- C1: in every employee summary built from normalized hours the three
classified buckets sum to at most the total (OTHER hours fill the rest), and
both derived percentages — bucket/total*100, 0 when the total is 0 — lie in
[0, 100]. -/
theorem c1_employee_summary_invariants (raws : List RawRow) :
    (buildEmployeeSummary (processHoursList raws)).Forall
      (fun kv =>
        kv.2.investmentHours + kv.2.expenseHours + kv.2.absenceHours ≤ kv.2.totalHours ∧
        0 ≤ kv.2.investmentPercent ∧ kv.2.investmentPercent ≤ 100 ∧
        0 ≤ kv.2.expensePercent ∧ kv.2.expensePercent ≤ 100) := by
  rw [List.forall_iff_forall_mem]
  intro kv hkv
  unfold buildEmployeeSummary at hkv
  obtain ⟨kv0, hkv0, hmap⟩ := List.mem_map.mp hkv
  have hb : bucketInv kv0.2 :=
    foldSummaries_bucket _ (fun r hr => (processHours_sound raws r hr).2.1) kv0 hkv0
  rw [← hmap]
  exact finalize_bounds kv0.2 hb

/-! ## C9 — task matrix ranking and cap -/

/-- One synthetic hours row for the matrix example. -/
def mkRow9 (e t : String) : RawRow :=
  [("Employee", jstr e), ("Hours", jnum 1), ("Task", jstr t)]

/-- Nine rows giving tasks T1, T2, T3 distinct-employee counts 5, 3, 1. -/
def rows9 : List RawRow :=
  [mkRow9 "e1" "T1", mkRow9 "e2" "T1", mkRow9 "e3" "T1", mkRow9 "e4" "T1", mkRow9 "e5" "T1",
   mkRow9 "e1" "T2", mkRow9 "e2" "T2", mkRow9 "e3" "T2",
   mkRow9 "e1" "T3"]

/-- C9: the matrix is a cap-length prefix of a permutation of all task
entries sorted by descending distinct-employee count; the configured cap is
20 (`MAX_MATRIX_TASKS || 20`); and on three tasks with employee counts
[5, 3, 1] a cap of 2 yields exactly the first two tasks in that order. -/
theorem c9_task_matrix :
    (∀ (records : List HoursRecord) (cap : Nat),
      ∃ l : List TaskEntry,
        l.Perm ((taskFold records).map toEntry) ∧
        l.Pairwise (fun a b => b.employeeCount ≤ a.employeeCount) ∧
        buildTaskMatrixCap records cap = l.take cap) ∧
    MAX_MATRIX_TASKS = 20 ∧
    (∀ records, buildTaskMatrix records = buildTaskMatrixCap records 20) ∧
    (buildTaskMatrixCap (processHoursList rows9) 2).map (fun e => (e.name, e.employeeCount))
      = [("T1", 5), ("T2", 3)] := by
  refine ⟨?_, rfl, fun records => rfl, by with_unfolding_all rfl⟩
  intro records cap
  refine ⟨((taskFold records).mergeSort taskGE).map toEntry, ?_, ?_, ?_⟩
  · exact List.Perm.map toEntry (List.mergeSort_perm _ taskGE)
  · have htrans : ∀ a b c, taskGE a b = true → taskGE b c = true → taskGE a c = true := by
      intro a b c hab hbc
      exact decide_eq_true (le_trans (of_decide_eq_true hbc) (of_decide_eq_true hab))
    have htotal : ∀ a b, (taskGE a b || taskGE b a) = true := by
      intro a b
      rcases Nat.le_total b.2.employees.card a.2.employees.card with h | h <;>
        simp [taskGE, h]
    have hs := @List.sorted_mergeSort (String × TaskAcc) taskGE htrans htotal (taskFold records)
    rw [List.pairwise_map]
    exact hs.imp (fun hab => of_decide_eq_true hab)
  · unfold buildTaskMatrixCap
    rw [List.map_take]

/-! ## C10 — unknown selected team disables filtering -/

/-- C10: when the selected team id is neither "all" nor the id of any loaded
team, membership reports true for every employee and both filters return
their input unchanged — a missing team behaves as no filtering, not as an
empty team. -/
theorem c10_missing_team (tf : TeamFilter) (h1 : tf.currentTeam ≠ "all")
    (h2 : ∀ t ∈ teamsOf tf, t.id ≠ tf.currentTeam) :
    (∀ empId, isEmployeeInCurrentTeam tf empId = true) ∧
    (∀ es, filterEmployees tf es = es) ∧
    (∀ hs, filterHoursData tf hs = hs) := by
  have hteam : getTeam tf tf.currentTeam = none := by
    unfold getTeam
    cases htd : tf.teamsData with
    | none => rfl
    | some ts =>
      apply List.find?_eq_none.mpr
      intro t ht
      have hne : t.id ≠ tf.currentTeam := h2 t (by unfold teamsOf; rw [htd]; exact ht)
      simp [hne]
  have hmem : ∀ empId, isEmployeeInCurrentTeam tf empId = true := by
    intro empId
    unfold isEmployeeInCurrentTeam
    rw [if_neg h1, hteam]
  refine ⟨hmem, fun es => ?_, fun hs => ?_⟩
  · unfold filterEmployees
    rw [if_neg h1]
    apply List.filter_eq_self.mpr
    intro e _
    exact hmem (empIdOf e)
  · unfold filterHoursData
    rw [if_neg h1]
    apply List.filter_eq_self.mpr
    intro r _
    exact hmem (rowIdOf r)

/-- The fallback teams structure of team-filter.js
(`getDefaultTeamsStructure`). -/
def defaultTeams : List Team :=
  [{ id := "all", name := "מנהל מדור", manager := "כל המדור", employees := [] },
   { id := "logashi", name := "צוות לוגאשי", manager := "קרן לוגאשי",
     employees := ["395602", "218668", "218503"] },
   { id := "spishvili", name := "צוות ספישווילי", manager := "יעקב ספישווילי",
     employees := ["218452", "216461", "395701", "219137", "219302", "218654", "218652", "219311"] },
   { id := "retail", name := "צוות ריטל", manager := "תומר ריטל",
     employees := ["219253", "217620", "217623"] },
   { id := "hoizman", name := "צוות הויזמן", manager := "אלקנה הויזמן",
     employees := ["395678", "218891", "219193", "395745"] }]

/-- A filter whose selected team id matches no loaded team. -/
def ghostTF : TeamFilter := { teamsData := some defaultTeams, currentTeam := "ghost" }

/-- A concrete employee summary and hours record for the C10 witness. -/
def empA : EmpSummary :=
  { name := jstr "A", id := "1001", employeeType := "עובד מתף", type := "מתף"
    totalHours := 1, investmentHours := 0, expenseHours := 0, absenceHours := 0
    requirements := ∅, days := ∅, tasks := ∅
    investmentPercent := 0, expensePercent := 0
    requirementCount := 0, dayCount := 0, taskCount := 0 }

def recA : HoursRecord :=
  mkHoursRecord [("Employee", jstr "A"), ("מספר עובד", jstr "1001"), ("Hours", jnum 3)]

/-- C10 witness: with the default teams loaded and the unknown team "ghost"
selected, the theorem applies and filtering is the identity. -/
theorem c10_witness :
    isEmployeeInCurrentTeam ghostTF "1001" = true ∧
    filterEmployees ghostTF [empA] = [empA] ∧
    filterHoursData ghostTF [recA] = [recA] := by
  have h := c10_missing_team ghostTF (by decide) (by decide)
  exact ⟨h.1 "1001", h.2.1 [empA], h.2.2 [recA]⟩
